import Mathlib

/-!
Verification development for the GitHub repository analyzer
(`github_analyzer_api.py`).  The definitions below are a shallow embedding
of the analyzer's core: the rate-limit-aware API request helper
(`_make_api_request`), the recursive directory walk
(`fetch_directory_contents` together with `_is_code_file` and the gating
logic of `_analyze_file_content`), the per-language lexical extractors
(`_extract_python_elements`, `_extract_kotlin_elements`), the feature
detector (`extract_features`) and the constructor's URL validation
(`GitHubAPIAnalyzer.__init__`).  Network traffic is modelled by oracles
(a scripted list of HTTP outcomes for the fetcher, a path-indexed listing
oracle for the walk); Python dictionaries are modelled with their
insertion-order and in-place-update semantics; Python regular expressions
are hand-translated into character-list scanners that reproduce
`re.finditer`'s leftmost, non-overlapping matching for the concrete
patterns appearing in the source.
-/

set_option maxRecDepth 8192

/-! ## Rate-limited fetcher (`_make_api_request`, lines 55-84) -/

/-- One outcome the network can produce for one `requests.get` call:
either the call itself raises (network error, caught as a
`RequestException`), or an HTTP response arrives carrying a status code,
the integer values of the `X-RateLimit-Remaining` and `X-RateLimit-Reset`
headers (a missing header is parsed as 0 by the source, so the model
stores the parsed value directly), and a JSON body. -/
inductive HttpResult (β : Type) where
  | netError : HttpResult β
  | resp (status : Nat) (remaining : Nat) (reset : Int) (body : β) : HttpResult β

/-- The fetcher's mutable quota state: `self.rate_limit_remaining`
(line 53/70) plus the current wall-clock time used by `time.time()` and
advanced by `time.sleep` (line 75-77).  The source stores no reset
timestamp; only the remaining count is kept. -/
structure FetchState where
  remaining : Nat
  now : Int

/-- Observable result of running `_make_api_request` against a script of
network outcomes: the returned value (`none` when the script is exhausted
while the code would still be retrying, `some none` for the Python
`return None`, `some (some b)` for a JSON body), the final quota state,
and a trace: every request issued (URL and query parameters), every sleep
duration, and every rate-limit response header read. -/
structure ApiResult (β : Type) where
  result : Option (Option β)
  state : FetchState
  requests : List (String × List (String × String))
  sleeps : List Int
  headerReads : List String

/-- Shallow embedding of `_make_api_request` (lines 66-84).  For each
attempt: on a raised `RequestException` from `requests.get` itself the
headers are never read and `None` is returned (lines 82-84); otherwise
`X-RateLimit-Remaining` is read and stored (line 70); if the status is
403 and the remaining count is 0, `X-RateLimit-Reset` is read, the code
sleeps `max(0, reset_time - now) + 1` seconds and recurses with the same
`url` and `params` (lines 73-78); otherwise `raise_for_status` (line 80)
turns a status ≥ 400 into a caught exception yielding `None`, and any
other status returns the JSON body.  The unbounded recursion is driven by
the finite script; an exhausted script yields `result = none`. -/
def makeApiRequest {β : Type} (script : List (HttpResult β)) (url : String)
    (params : List (String × String)) (st : FetchState) : ApiResult β :=
  match script with
  | [] => ⟨none, st, [], [], []⟩
  | .netError :: _ => ⟨some none, st, [(url, params)], [], []⟩
  | .resp status remaining reset body :: rest =>
    let st1 : FetchState := { st with remaining := remaining }
    if status == 403 && remaining == 0 then
      let sleep : Int := max 0 (reset - st1.now) + 1
      let inner := makeApiRequest rest url params { st1 with now := st1.now + sleep }
      ⟨inner.result, inner.state, (url, params) :: inner.requests, sleep :: inner.sleeps,
        "X-RateLimit-Remaining" :: "X-RateLimit-Reset" :: inner.headerReads⟩
    else if status < 400 then
      ⟨some (some body), st1, [(url, params)], [], ["X-RateLimit-Remaining"]⟩
    else
      ⟨some none, st1, [(url, params)], [], ["X-RateLimit-Remaining"]⟩

/-! ## Directory tree data model (the nested dict built by
`fetch_directory_contents`, lines 292-325) -/

mutual
/-- A value stored in the structure dict: either a nested directory dict
(stored under the directory's name, line 314) or the list of file names
stored under the reserved `"__files"` key (lines 316-318). -/
inductive PyVal : Type where
  | dict : PyDict → PyVal
  | list : List String → PyVal

/-- A Python dict from string keys to `PyVal`, modelled as an
insertion-ordered association list with unique keys. -/
inductive PyDict : Type where
  | nil : PyDict
  | cons : String → PyVal → PyDict → PyDict
end

/-- Python `d[key]` / `key in d` lookup. -/
def getVal : PyDict → String → Option PyVal
  | .nil, _ => none
  | .cons k v rest, key => if k == key then some v else getVal rest key

/-- Python `d[key] = v`: replaces the value in place when the key exists
(the key keeps its position), appends a new binding otherwise. -/
def setVal : PyDict → String → PyVal → PyDict
  | .nil, key, v => .cons key v .nil
  | .cons k w rest, key, v =>
    if k == key then .cons k v rest else .cons k w (setVal rest key v)

/-! ## Tree walk (`fetch_directory_contents`, lines 292-325) -/

/-- One entry of a `GET /contents/{path}` listing, with the fields the
source reads: `name`, `type`, `path`, `size`, `download_url`
(`download_url` is `Option`al, mirroring `file_info.get('download_url')`
on line 350). -/
structure Entry where
  name : String
  type : String
  path : String
  size : Nat
  download_url : Option String

/-- `p.data.isPrefixOf s.data`, i.e. Python `s.startswith(p)`. -/
def strStartsWith (s p : String) : Bool := p.data.isPrefixOf s.data

/-- The skip test of line 310: hidden entries (name starting with `'.'`)
and the noise directories `node_modules` and `__pycache__`. -/
def skipName (name : String) : Bool :=
  strStartsWith name "." || name == "node_modules" || name == "__pycache__"

/-- Lowercase a string character-wise, Python `str.lower` for ASCII. -/
def lowerStr (s : String) : String := String.mk (s.data.map Char.toLower)

/-- The extension allow-list of `_is_code_file` (line 338). -/
def codeExtensions : List String :=
  [".py", ".js", ".java", ".cpp", ".c", ".go", ".rb", ".php", ".ts",
   ".jsx", ".tsx", ".kt", ".kts"]

/-- `os.path.splitext(name)[1]`: the suffix from the last `'.'`, unless
every character before that dot is itself a dot (then there is no
extension).  The argument is already lowercased by the caller. -/
def fileExtensionOf (cs : List Char) : String :=
  let rev := cs.reverse
  let extRev := rev.takeWhile (fun c => !(c == '.'))
  let restRev := rev.dropWhile (fun c => !(c == '.'))
  match restRev with
  | '.' :: pre =>
    if pre.all (fun c => c == '.') then "" else ('.' :: extRev.reverse).asString
  | _ => ""

/-- `_is_code_file` (lines 327-338): lowercase the filename, split the
extension, test membership in the allow-list. -/
def isCodeFile (filename : String) : Bool :=
  codeExtensions.contains (fileExtensionOf (lowerStr filename).data)

/-- Run-scoped mutable counters touched by the walk: `self.file_count`
(line 319) and a trace of the content downloads issued by
`_analyze_file_content` (line 355), recording each analyzed file's
repository path. -/
structure WalkState where
  fileCount : Nat
  attempts : List String

/-- The gating logic of `_analyze_file_content` (lines 340-355): files
reported larger than 500000 bytes are skipped (line 347), a missing or
falsy `download_url` is skipped (lines 350-352), otherwise the content
GET is issued (line 355) — recorded in `attempts`.  The downstream
per-extension dispatch feeds the extractors modelled separately below;
its failures are caught per file (lines 372-373) and do not affect the
walk, so the model carries only the attempt trace. -/
def analyzeFileContent (e : Entry) (st : WalkState) : WalkState :=
  if e.size > 500000 then st
  else
    match e.download_url with
    | none => st
    | some u => if u == "" then st else { st with attempts := st.attempts ++ [e.path] }

/-- Errors a walk can produce.  `outOfFuel` is an artifact of the
embedding (the source recursion is bounded only by the real directory
depth); `attributeError` is the Python `AttributeError` raised by
`result['__files'].append(...)` when the `'__files'` slot holds a dict. -/
inductive WalkErr where
  | outOfFuel : WalkErr
  | attributeError : WalkErr

/-- The file branch of the walk loop (lines 315-323): ensure `'__files'`
holds a list and append the file name (raising `AttributeError` when a
subdirectory named `__files` already occupies the slot), increment
`self.file_count`, and analyze the file when its extension is in the
allow-list. -/
def handleFile (e : Entry) (acc : PyDict) (st : WalkState) :
    Except WalkErr (PyDict × WalkState) :=
  match getVal acc "__files" with
  | some (.dict _) => .error .attributeError
  | some (.list fs) =>
    let acc1 := setVal acc "__files" (.list (fs ++ [e.name]))
    let st1 : WalkState := { st with fileCount := st.fileCount + 1 }
    .ok (acc1, if isCodeFile e.name then analyzeFileContent e st1 else st1)
  | none =>
    let acc1 := setVal acc "__files" (.list [e.name])
    let st1 : WalkState := { st with fileCount := st.fileCount + 1 }
    .ok (acc1, if isCodeFile e.name then analyzeFileContent e st1 else st1)

/-- The entry loop of `fetch_directory_contents` (lines 309-323),
parameterized by `recur`, the recursive walk at one level deeper: skip
hidden/noise names, recurse on directories storing the subtree under the
entry's name (line 314), handle files via `handleFile`. -/
def walkEntries (recur : String → WalkState → Except WalkErr (PyDict × WalkState)) :
    List Entry → PyDict → WalkState → Except WalkErr (PyDict × WalkState)
  | [], acc, st => .ok (acc, st)
  | e :: rest, acc, st =>
    if skipName e.name then walkEntries recur rest acc st
    else if e.type == "dir" then
      match recur e.path st with
      | .error err => .error err
      | .ok (sub, st1) => walkEntries recur rest (setVal acc e.name (.dict sub)) st1
    else
      match handleFile e acc st with
      | .error err => .error err
      | .ok (acc1, st1) => walkEntries recur rest acc1 st1

/-- `fetch_directory_contents` (lines 292-325).  `fetch` is the API
oracle for `GET /contents/{path}`: `none` models a failed request
(`_make_api_request` returned `None`) or a non-list body, both of which
hit the `return {}` on lines 305-306; a falsy empty listing also returns
`{}`.  `fuel` bounds the embedding's recursion depth only. -/
def walkDir (fetch : String → Option (List Entry)) :
    Nat → String → WalkState → Except WalkErr (PyDict × WalkState)
  | 0, _, _ => .error .outOfFuel
  | fuel + 1, path, st =>
    match fetch path with
    | none => .ok (.nil, st)
    | some contents =>
      if contents.isEmpty then .ok (.nil, st)
      else walkEntries (walkDir fetch fuel) contents .nil st

/-! ## Cleanliness predicate for claim C3 -/

mutual
/-- A stored value contains no hidden/noise name: every file name in a
file list passes the line-310 filter, and nested dicts are clean. -/
def cleanVal : PyVal → Bool
  | .list fs => fs.all (fun f => !skipName f)
  | .dict es => cleanDict es

/-- A structure dict contains no hidden/noise name among its keys or
anywhere below. -/
def cleanDict : PyDict → Bool
  | .nil => true
  | .cons k v rest => !skipName k && cleanVal v && cleanDict rest
end

/-! ## Python function extractor (`_extract_python_elements`,
lines 375-405; the function-definition pass and its privacy filter) -/

/-- One extracted function (the dicts appended to `self.functions`). -/
structure CodeElement where
  name : String
  file : String
  params : String
  language : String
deriving DecidableEq

/-- `[a-zA-Z0-9_]` (ASCII, as Python `re` without `re.UNICODE`
restrictions behaves on these literal classes). -/
def isIdentChar (c : Char) : Bool := c.isAlpha || c.isDigit || c == '_'

/-- Python `\s`: space, tab, newline, carriage return, vertical tab,
form feed. -/
def isPySpace (c : Char) : Bool :=
  c == ' ' || c == '\t' || c == '\n' || c == '\r' || c == '\x0b' || c == '\x0c'

/-- The lazy `(.*?)\):` tail of the pattern on line 378: the shortest run
of non-newline characters followed by `)` and `:`; returns the captured
parameter text and the remainder after the consumed `):`. -/
def pyLazyParams : List Char → Option (List Char × List Char)
  | [] => none
  | ')' :: ':' :: rest => some ([], rest)
  | c :: rest =>
    if c == '\n' then none
    else
      match pyLazyParams rest with
      | some (p, r) => some (c :: p, r)
      | none => none

/-- Attempt the pattern `def\s+([a-zA-Z0-9_]+)\s*\((.*?)\):` of line 378
at the head of the input; on success return (name, params) and the
remainder after the match. -/
def tryMatchDef (cs : List Char) : Option ((String × String) × List Char) :=
  match cs with
  | 'd' :: 'e' :: 'f' :: rest =>
    let sp := rest.takeWhile isPySpace
    let r1 := rest.dropWhile isPySpace
    if sp.isEmpty then none
    else
      let nm := r1.takeWhile isIdentChar
      let r2 := r1.dropWhile isIdentChar
      if nm.isEmpty then none
      else
        let r3 := r2.dropWhile isPySpace
        match r3 with
        | '(' :: r4 =>
          match pyLazyParams r4 with
          | some (ps, r5) => some ((nm.asString, ps.asString), r5)
          | none => none
        | _ => none
  | _ => none

/-- `re.finditer` over a character list: try the matcher at every
position, left to right, resuming after the end of each (non-empty)
match.  `fuel` is initialized with the input length; every step either
consumes the match (at least one character) or advances one position. -/
def reFindIter {α : Type} (tryM : List Char → Option (α × List Char)) :
    Nat → List Char → List α
  | 0, _ => []
  | _ + 1, [] => []
  | fuel + 1, c :: rest =>
    match tryM (c :: rest) with
    | some (a, r) => a :: reFindIter tryM fuel r
    | none => reFindIter tryM fuel rest

/-- The privacy filter of lines 384-385 (and 489-490): skip names with a
single leading underscore but keep dunder-style names. -/
def privateFilter (name : String) : Bool :=
  strStartsWith name "_" && !strStartsWith name "__"

/-- The function-definition pass of `_extract_python_elements`
(lines 377-392): find all `def` matches, drop private names, and emit
`CodeElement`s tagged `"Python"`.  (The class pass on lines 394-405
appends to the separate `self.classes` accumulator and is not needed by
any claim.) -/
def extractPythonFunctions (content path : String) : List CodeElement :=
  (reFindIter tryMatchDef content.data.length content.data).filterMap fun m =>
    if privateFilter m.1 then none
    else some ⟨m.1, path, m.2, "Python"⟩

/-! ## Kotlin function extractor (`_extract_kotlin_elements`,
lines 467-511; the plain-function and extension-function passes) -/

/-- Consume an exact literal prefix. -/
def dropLit (lit : List Char) (cs : List Char) : Option (List Char) :=
  if lit.isPrefixOf cs then some (cs.drop lit.length) else none

/-- An alternation of literals with a trailing empty alternative, e.g.
`(?:private|public|internal|protected|)?`: consume the first alternative
that is a prefix, else consume nothing.  (If consuming the literal lets
the rest of the pattern fail, the empty alternative would require the
mandatory `fun` keyword at the very same position where the literal
stood, which also fails, so no backtracking is needed.) -/
def dropFirstLit (lits : List String) (cs : List Char) : List Char :=
  match lits with
  | [] => cs
  | l :: ls =>
    match dropLit l.data cs with
    | some r => r
    | none => dropFirstLit ls cs

/-- The optional generic group `(?:<.*?>)?` (with `re.DOTALL`): when the
head is `<`, lazily consume up to the first `>`; a `<` with no closing
`>` fails the whole attempt (the empty alternative would leave the
mandatory following item staring at `<`). -/
def dropGeneric (cs : List Char) : Option (List Char) :=
  match cs with
  | '<' :: rest =>
    match rest.dropWhile (fun c => !(c == '>')) with
    | '>' :: r => some r
    | _ => none
  | _ => some cs

/-- The lazy `\((.*?)\)` parameter group under `re.DOTALL` (line 483 and
500): everything up to the first `)`, across newlines. -/
def takeUntilClose (cs : List Char) : Option (List Char × List Char) :=
  let pre := cs.takeWhile (fun c => !(c == ')'))
  match cs.dropWhile (fun c => !(c == ')')) with
  | ')' :: r => some (pre, r)
  | _ => none

/-- `[a-zA-Z0-9_<>., ]`, the character class of Kotlin receiver types and
return types in the patterns of lines 483 and 500. -/
def isKtTypeChar (c : Char) : Bool :=
  isIdentChar c || c == '<' || c == '>' || c == '.' || c == ',' || c == ' '

/-- The trailing optional return-type group
`(?:\s*:\s*[a-zA-Z0-9_<>., ]+)?`: greedily consume it when its shape is
present (it is the last pattern item, so greed is final); otherwise
consume nothing. -/
def dropReturnType (cs : List Char) : List Char :=
  match cs.dropWhile isPySpace with
  | ':' :: r2 =>
    let r3 := r2.dropWhile isPySpace
    let run := r3.takeWhile isKtTypeChar
    if run.isEmpty then cs else r3.dropWhile isKtTypeChar
  | _ => cs

/-- Shared tail of the plain-function pattern of line 483 after the
captured name: `\s*(?:<.*?>)?\s*\((.*?)\)` plus the optional return
type. -/
def ktFunTail (nm : List Char) (cs : List Char) :
    Option ((String × String) × List Char) :=
  match dropGeneric (cs.dropWhile isPySpace) with
  | none => none
  | some c2 =>
    match c2.dropWhile isPySpace with
    | '(' :: c4 =>
      match takeUntilClose c4 with
      | some (ps, c5) => some ((nm.asString, ps.asString), dropReturnType c5)
      | none => none
    | _ => none

/-- Attempt the plain Kotlin function pattern of line 483,
`(?:private|public|internal|protected|)?\s*(?:suspend|inline|)?\s*fun\s+`
`(?:<.*?>)?\s*(?:[a-zA-Z0-9_]+\.)?([a-zA-Z0-9_]+)\s*(?:<.*?>)?\s*`
`\((.*?)\)(?:\s*:\s*[a-zA-Z0-9_<>., ]+)?`, at the head of the input.
The optional non-capturing receiver `[a-zA-Z0-9_]+\.` is consumed when
present; when consuming it fails the remainder, the backtracked
alternative (receiver empty, name = the same identifier run) necessarily
fails at the `.` as well, so the single pass is faithful. -/
def tryMatchKtFun (cs : List Char) : Option ((String × String) × List Char) :=
  let c1 := dropFirstLit ["private", "public", "internal", "protected"] cs
  let c2 := c1.dropWhile isPySpace
  let c3 := dropFirstLit ["suspend", "inline"] c2
  let c4 := c3.dropWhile isPySpace
  match dropLit ['f', 'u', 'n'] c4 with
  | none => none
  | some c5 =>
    let sp := c5.takeWhile isPySpace
    let c6 := c5.dropWhile isPySpace
    if sp.isEmpty then none
    else
      match dropGeneric c6 with
      | none => none
      | some c7 =>
        let c8 := c7.dropWhile isPySpace
        let id1 := c8.takeWhile isIdentChar
        let c9 := c8.dropWhile isIdentChar
        if id1.isEmpty then none
        else
          match c9 with
          | '.' :: c10 =>
            let nm := c10.takeWhile isIdentChar
            let c11 := c10.dropWhile isIdentChar
            if nm.isEmpty then none else ktFunTail nm c11
          | _ => ktFunTail id1 c9

/-- Attempt the Kotlin extension-function pattern of line 500,
`...fun\s+([a-zA-Z0-9_<>., ]+)\.([a-zA-Z0-9_]+)\s*\((.*?)\)...`, at the
head of the input.  Every character of the greedy receiver capture, the
dot, the function name and the `\s*` before `(` lies in the class
`[a-zA-Z0-9_<>., ]`, so the `(` must sit right after the maximal run of
that class; the greedy (longest-receiver) split takes the identifier
suffix before the trailing spaces of that run, preceded by a dot, with a
non-empty receiver before it. -/
def tryMatchKtExt (cs : List Char) :
    Option ((String × String × String) × List Char) :=
  let c1 := dropFirstLit ["private", "public", "internal", "protected"] cs
  let c2 := c1.dropWhile isPySpace
  let c3 := dropFirstLit ["suspend", "inline"] c2
  let c4 := c3.dropWhile isPySpace
  match dropLit ['f', 'u', 'n'] c4 with
  | none => none
  | some c5 =>
    let sp := c5.takeWhile isPySpace
    let c6 := c5.dropWhile isPySpace
    if sp.isEmpty then none
    else
      let run := c6.takeWhile isKtTypeChar
      match c6.dropWhile isKtTypeChar with
      | '(' :: c8 =>
        let rrev := run.reverse.dropWhile (fun c => c == ' ')
        let nmRev := rrev.takeWhile isIdentChar
        let preRev := rrev.dropWhile isIdentChar
        if nmRev.isEmpty then none
        else
          match preRev with
          | '.' :: recvRev =>
            if recvRev.isEmpty then none
            else
              match takeUntilClose c8 with
              | some (ps, c9) =>
                some ((recvRev.reverse.asString, nmRev.reverse.asString,
                       ps.asString), dropReturnType c9)
              | none => none
          | _ => none
      | _ => none

/-- The function passes of `_extract_kotlin_elements` (lines 482-511):
the plain pass (line 483) with the privacy filter, tagged `"Kotlin"`,
followed by the extension pass (line 500) producing the dotted
`receiver.name` with tag `"Kotlin (Extension)"` and no filter.  (The
class pass on lines 469-480 appends to `self.classes` and is not needed
by any claim.) -/
def extractKotlinFunctions (content path : String) : List CodeElement :=
  let plain :=
    (reFindIter tryMatchKtFun content.data.length content.data).filterMap fun m =>
      if privateFilter m.1 then none
      else some ⟨m.1, path, m.2, "Kotlin"⟩
  let ext :=
    (reFindIter tryMatchKtExt content.data.length content.data).map fun m =>
      ⟨m.1 ++ "." ++ m.2.1, path, m.2.2, "Kotlin (Extension)"⟩
  plain ++ ext

/-! ## Feature detection (`extract_features`, lines 514-556) -/

/-- Python's `repr` of a plain identifier-like string. -/
def pyRepr (s : String) : String := "'" ++ s ++ "'"

/-- `str` of a Python list of strings: `['a', 'b']`. -/
def pyStrNames : List String → String
  | [] => ""
  | [f] => pyRepr f
  | f :: rest => pyRepr f ++ ", " ++ pyStrNames rest

mutual
/-- `str` of a structure value: nested dict or file-name list. -/
def pyStrVal : PyVal → String
  | .dict es => "\x7b" ++ pyStrEntries es ++ "\x7d"
  | .list fs => "[" ++ pyStrNames fs ++ "]"

/-- `str` of the entries of a structure dict, comma-separated. -/
def pyStrEntries : PyDict → String
  | .nil => ""
  | .cons k v .nil => pyRepr k ++ ": " ++ pyStrVal v
  | .cons k v rest => pyRepr k ++ ": " ++ pyStrVal v ++ ", " ++ pyStrEntries rest
end

/-- `needle in hay` on character lists (Python substring test; the empty
needle is contained everywhere). -/
def seqContains (hay needle : List Char) : Bool :=
  match hay with
  | [] => needle.isEmpty
  | h :: t => needle.isPrefixOf (h :: t) || seqContains t needle

/-- The framework indicator table of lines 529-544, in source order. -/
def frameworksTable : List (String × List String) :=
  [("Django", ["django", "settings.py", "wsgi.py"]),
   ("Flask", ["app.py", "flask", "routes.py"]),
   ("React", ["react", "jsx", "components"]),
   ("Angular", ["angular.json", "component.ts"]),
   ("Vue.js", ["vue.config.js", ".vue"]),
   ("Express.js", ["express", "routes", "app.js"]),
   ("Spring Boot", ["application.properties", "SpringApplication"]),
   ("Docker", ["Dockerfile", "docker-compose.yml"]),
   ("Kubernetes", ["k8s", "deployment.yaml"]),
   ("Next.js", ["next.config.js", "pages"]),
   ("GraphQL", ["graphql", "schema.graphql"]),
   ("TypeScript", ["tsconfig.json", ".ts"]),
   ("Jest", ["jest.config.js", "test.js"]),
   ("Pytest", ["pytest.ini", "test_"])]

/-- `extract_features` (lines 514-556): every language key is a feature;
when the structure dict is truthy (non-empty), a framework is appended
when any of its indicators occurs case-insensitively in
`str(self.repo_structure)` (first hit breaks); finally `list(set(...))`
deduplicates — Python's set order is unspecified, modelled as the
first-occurrence-preserving `dedup`. -/
def extractFeatures (languageStats : List (String × Nat)) (repoStructure : PyDict) :
    List String :=
  let feats := languageStats.map Prod.fst
  let feats :=
    match repoStructure with
    | .nil => feats
    | .cons _ _ _ =>
      let structureStr := pyStrVal (.dict repoStructure)
      feats ++ frameworksTable.filterMap fun (fw : String × List String) =>
        if fw.2.any (fun ind =>
            seqContains (lowerStr structureStr).data (lowerStr ind).data)
        then some fw.1 else none
  feats.dedup

/-! ## Constructor URL validation (`GitHubAPIAnalyzer.__init__`,
lines 31-38) -/

/-- Python `path.strip('/')`: remove leading and trailing slashes. -/
def stripSlashes (cs : List Char) : List Char :=
  (((cs.dropWhile (fun c => c == '/')).reverse.dropWhile (fun c => c == '/'))).reverse

/-- Python `s.split('/')` for the single-character separator `/`:
`"" ↦ [""]`, empty segments between consecutive separators are kept. -/
def splitSlash : List Char → List (List Char)
  | [] => [[]]
  | c :: rest =>
    if c == '/' then [] :: splitSlash rest
    else
      match splitSlash rest with
      | [] => [[c]]
      | p :: ps => (c :: p) :: ps

/-- The owner/repo extraction of `__init__` (lines 31-38), taking the
URL's path component (the `urlparse` library call is the model's input
boundary): strip slashes, split on `/`; fewer than two segments raise
`ValueError("Invalid GitHub repository URL")`, otherwise owner and repo
name are the first two segments. -/
def analyzerInit (urlPath : String) : Except String (String × String) :=
  match splitSlash (stripSlashes urlPath.data) with
  | a :: b :: _ => .ok (a.asString, b.asString)
  | _ => .error "Invalid GitHub repository URL"

/-! ## Concrete instances used by the claim theorems and witnesses -/

/-- Python sample of the spec's extractor test: a public function, a
single-underscore private helper, and a dunder-style method. -/
def pySample : String :=
  "def run(self, x):\n    return x\n\ndef _helper():\n    pass\n\ndef __init__(self):\n    pass\n"

/-- Kotlin sample with a plain function and an extension-style function
declared against a receiver type. -/
def ktSample : String :=
  "fun greet(name: String): String = name\n\nfun String.shout(msg: String): String = msg\n"

/-- Structure dict whose serialization contains `Dockerfile`. -/
def dockerStruct : PyDict := .cons "__files" (.list ["Dockerfile"]) .nil

/-- Listing oracle with two sibling directories, the first of which fails
to fetch while the second lists empty. -/
def siblingFetch : String → Option (List Entry) := fun p =>
  if p == "" then
    some [⟨"broken", "dir", "brokenpath", 0, none⟩, ⟨"ok", "dir", "okpath", 0, none⟩]
  else if p == "okpath" then some [] else none

/-- Listing oracle with hidden and noise entries at two nesting levels. -/
def hiddenNoiseFetch : String → Option (List Entry) := fun p =>
  if p == "" then
    some [⟨".git", "dir", ".git", 0, none⟩, ⟨"src", "dir", "src", 0, none⟩,
          ⟨"node_modules", "dir", "node_modules", 0, none⟩]
  else if p == "src" then
    some [⟨".hidden.py", "file", "src/.hidden.py", 10, some "u"⟩,
          ⟨"main.py", "file", "src/main.py", 10, some "u"⟩]
  else none

/-- A recognized code file under the 500000-byte cap. -/
def smallEntry : Entry := ⟨"small.py", "file", "src/small.py", 400, some "u"⟩

/-- A recognized code file over the 500000-byte cap. -/
def bigEntry : Entry := ⟨"big.py", "file", "src/big.py", 600000, some "u"⟩

/-- Listing oracle whose root lists a subdirectory named `__files`
before a sibling file. -/
def dirFirstFetch : String → Option (List Entry) := fun p =>
  if p == "" then
    some [⟨"__files", "dir", "sub", 0, none⟩, ⟨"a.txt", "file", "a.txt", 5, none⟩]
  else if p == "sub" then some [] else none

/-- Listing oracle whose root lists a file before a subdirectory named
`__files`. -/
def fileFirstFetch : String → Option (List Entry) := fun p =>
  if p == "" then
    some [⟨"a.txt", "file", "a.txt", 5, none⟩, ⟨"__files", "dir", "sub", 0, none⟩]
  else if p == "sub" then some [] else none

/-! ## Theorems -/

/-- Every request issued during one `_make_api_request` activation (the
original attempt and all throttling retries) carries the same URL and the
same query parameters. -/
theorem makeApiRequest_requests_const {β : Type} (script : List (HttpResult β))
    (url : String) (params : List (String × String)) :
    ∀ st, ((makeApiRequest script url params st).requests).all
      (fun q => q == (url, params)) = true := by
  induction script with
  | nil => intro st; rfl
  | cons h rest ih =>
    intro st
    cases h with
    | netError => simp [makeApiRequest]
    | resp s r t b =>
      by_cases hc : (s == 403 && r == 0) = true
      · simp only [makeApiRequest, hc, if_true, List.all_cons]
        simp only [beq_self_eq_true, Bool.true_and]
        exact ih _
      · simp only [makeApiRequest, Bool.not_eq_true] at hc ⊢
        rw [if_neg (by simp [hc])]
        split <;> simp

/-- With `n` consecutive throttled responses followed by a success, the
fetcher issues exactly `n + 1` requests: the retry count is bounded only
by the script. -/
theorem makeApiRequest_throttle_count {β : Type} (body : β) (reset : Int)
    (url : String) (params : List (String × String)) :
    ∀ (n : Nat) (st : FetchState),
      ((makeApiRequest (List.replicate n (HttpResult.resp 403 0 reset body) ++
        [HttpResult.resp 200 1 reset body]) url params st).requests).length = n + 1 := by
  intro n
  induction n with
  | zero => intro st; rfl
  | succ m ih =>
    intro st
    simp only [List.replicate_succ, List.cons_append]
    show ((url, params) ::
      (makeApiRequest (List.replicate m (HttpResult.resp 403 0 reset body) ++
        [HttpResult.resp 200 1 reset body]) url params
        ⟨0, st.now + (max 0 (reset - st.now) + 1)⟩).requests).length = m + 1 + 1
    rw [List.length_cons, ih]

/-- C1: on a 403 response whose remaining-quota header is 0,
`_make_api_request` sleeps `max(0, reset_time - now) + 1` seconds (so it
resumes no earlier than `reset_time + 1`) and re-issues the request with
the same URL and parameters; every request of the activation is identical
to the original and the number of retries is unbounded (a script of `n`
throttled responses yields `n + 1` identical requests). -/
theorem rate_limit_retry_spec :
    (∀ (β : Type) (rest : List (HttpResult β)) (url : String)
        (params : List (String × String)) (st : FetchState) (reset : Int) (body : β),
      makeApiRequest (HttpResult.resp 403 0 reset body :: rest) url params st =
        ⟨(makeApiRequest rest url params ⟨0, st.now + (max 0 (reset - st.now) + 1)⟩).result,
         (makeApiRequest rest url params ⟨0, st.now + (max 0 (reset - st.now) + 1)⟩).state,
         (url, params) ::
           (makeApiRequest rest url params ⟨0, st.now + (max 0 (reset - st.now) + 1)⟩).requests,
         (max 0 (reset - st.now) + 1) ::
           (makeApiRequest rest url params ⟨0, st.now + (max 0 (reset - st.now) + 1)⟩).sleeps,
         "X-RateLimit-Remaining" :: "X-RateLimit-Reset" ::
           (makeApiRequest rest url params
             ⟨0, st.now + (max 0 (reset - st.now) + 1)⟩).headerReads⟩) ∧
    (∀ (st : FetchState) (reset : Int),
      reset + 1 ≤ st.now + (max 0 (reset - st.now) + 1)) ∧
    (∀ (β : Type) (script : List (HttpResult β)) url params st,
      ((makeApiRequest script url params st).requests).all
        (fun q => q == (url, params)) = true) ∧
    (∀ (β : Type) (body : β) (reset : Int) url params st (n : Nat),
      ((makeApiRequest (List.replicate n (HttpResult.resp 403 0 reset body) ++
        [HttpResult.resp 200 1 reset body]) url params st).requests).length = n + 1) := by
  refine ⟨?_, ?_, ?_, ?_⟩
  · intro β rest url params st reset body
    rfl
  · intro st reset
    have h := le_max_right (0 : Int) (reset - st.now)
    omega
  · intro β script url params st
    exact makeApiRequest_requests_const script url params st
  · intro β body reset url params st n
    exact makeApiRequest_throttle_count body reset url params n st

/-- C7 counterexample: on a network failure `requests.get` raises before
any header is read, so the quota state is left untouched (`remaining`
stays at its previous value 5); and on a successful response only the
remaining-quota header is read — the reset-time header is consulted in
the throttled branch alone.  This refutes the claim that both headers are
read and the quota state updated after every call regardless of
outcome. -/
theorem quota_update_counterexample :
    (makeApiRequest (β := Unit) [HttpResult.netError] "u" [] ⟨5, 0⟩).state =
      ⟨5, 0⟩ ∧
    (makeApiRequest (β := Unit) [HttpResult.netError] "u" [] ⟨5, 0⟩).headerReads = [] ∧
    (makeApiRequest (β := Unit) [HttpResult.resp 200 7 99 ()] "u" [] ⟨5, 0⟩).headerReads =
      ["X-RateLimit-Remaining"] :=
  ⟨rfl, rfl, rfl⟩

/-- C7 amended: after every call that obtains an HTTP response the
remaining-quota header is read and the stored remaining count (the only
quota state the analyzer keeps) is updated unconditionally; the
reset-time header is additionally read exactly in the throttled branch;
on a network failure at the request step no header is read and the quota
state is unchanged. -/
theorem quota_update_amended :
    (∀ (β : Type) (script : List (HttpResult β)) url params st,
      makeApiRequest (HttpResult.netError :: script) url params st =
        ⟨some none, st, [(url, params)], [], []⟩) ∧
    (∀ (β : Type) (s r : Nat) (t : Int) (b : β) script url params st,
      ¬(s = 403 ∧ r = 0) →
      makeApiRequest (HttpResult.resp s r t b :: script) url params st =
        ⟨some (if s < 400 then some b else none), ⟨r, st.now⟩, [(url, params)], [],
          ["X-RateLimit-Remaining"]⟩) ∧
    (∀ (β : Type) (t : Int) (b : β) script url params st,
      (makeApiRequest (HttpResult.resp 403 0 t b :: script) url params st).headerReads =
        "X-RateLimit-Remaining" :: "X-RateLimit-Reset" ::
          (makeApiRequest script url params
            ⟨0, st.now + (max 0 (t - st.now) + 1)⟩).headerReads) := by
  refine ⟨?_, ?_, ?_⟩
  · intro β script url params st
    rfl
  · intro β s r t b script url params st h
    have hc : (s == 403 && r == 0) = false := by
      simp only [Bool.and_eq_false_iff, beq_eq_false_iff_ne, ne_eq]
      by_cases hs : s = 403
      · exact Or.inr fun hr => h ⟨hs, hr⟩
      · exact Or.inl hs
    simp only [makeApiRequest, hc, Bool.false_eq_true, if_false]
    split <;> rfl
  · intro β t b script url params st
    rfl

/-- C7 witness: the amended per-response update instantiated on a
concrete successful call. -/
theorem quota_update_amended_witness :
    makeApiRequest (β := Unit) [HttpResult.resp 200 7 99 ()] "u" [] ⟨5, 0⟩ =
      ⟨some (some ()), ⟨7, 0⟩, [("u", [])], [], ["X-RateLimit-Remaining"]⟩ :=
  quota_update_amended.2.1 Unit 200 7 99 () [] "u" [] ⟨5, 0⟩ (by omega)

/-- One-step unfolding of the walk at positive fuel. -/
theorem walkDir_succ (fetch : String → Option (List Entry)) (fuel : Nat)
    (path : String) (st : WalkState) :
    walkDir fetch (fuel + 1) path st =
      match fetch path with
      | none => .ok (.nil, st)
      | some contents =>
        if contents.isEmpty then .ok (.nil, st)
        else walkEntries (walkDir fetch fuel) contents .nil st := rfl

/-- One-step unfolding of the entry loop. -/
theorem walkEntries_cons (recur : String → WalkState → Except WalkErr (PyDict × WalkState))
    (e : Entry) (rest : List Entry) (acc : PyDict) (st : WalkState) :
    walkEntries recur (e :: rest) acc st =
      (if skipName e.name then walkEntries recur rest acc st
       else if e.type == "dir" then
         match recur e.path st with
         | .error err => .error err
         | .ok (sub, st1) => walkEntries recur rest (setVal acc e.name (.dict sub)) st1
       else
         match handleFile e acc st with
         | .error err => .error err
         | .ok (acc1, st1) => walkEntries recur rest acc1 st1) := rfl

/-- A directory whose listing fetch fails yields the empty dict with the
walk state untouched. -/
theorem walkDir_fetch_none (fetch : String → Option (List Entry)) (fuel : Nat)
    (path : String) (st : WalkState) (h : fetch path = none) :
    walkDir fetch (fuel + 1) path st = .ok (.nil, st) := by
  rw [walkDir_succ, h]

/-- C2: a non-throttling request failure (network error, or an error
status not explained by throttling) makes `_make_api_request` return the
empty result `None` instead of raising; `fetch_directory_contents` maps a
failed listing to an empty node; and a failed subtree does not stop the
walk of its siblings: with two sibling directories whose first listing
fails, the parent node still carries the empty node for the first and the
fully walked subtree for the second. -/
theorem fetch_failure_isolated :
    (∀ (β : Type) url params st,
      (makeApiRequest (β := β) [HttpResult.netError] url params st).result =
        some none) ∧
    (∀ (β : Type) (s r : Nat) (t : Int) (b : β) url params st,
      400 ≤ s → (s = 403 → r ≠ 0) →
      (makeApiRequest [HttpResult.resp s r t b] url params st).result = some none) ∧
    (∀ fetch fuel path st, fetch path = none →
      walkDir fetch (fuel + 1) path st = .ok (.nil, st)) ∧
    (∀ fetch fuel (root : String) (e1 e2 : Entry) st t st',
      fetch root = some [e1, e2] →
      e1.type = "dir" → e2.type = "dir" →
      skipName e1.name = false → skipName e2.name = false →
      e1.name ≠ e2.name →
      fetch e1.path = none →
      walkDir fetch (fuel + 1) e2.path st = .ok (t, st') →
      walkDir fetch (fuel + 2) root st =
        .ok (.cons e1.name (.dict .nil) (.cons e2.name (.dict t) .nil), st')) := by
  refine ⟨?_, ?_, ?_, ?_⟩
  · intro β url params st
    rfl
  · intro β s r t b url params st hs h403
    have hc : (s == 403 && r == 0) = false := by
      simp only [Bool.and_eq_false_iff, beq_eq_false_iff_ne, ne_eq]
      by_cases h : s = 403
      · exact Or.inr (h403 h)
      · exact Or.inl h
    have hlt : ¬ s < 400 := by omega
    simp only [makeApiRequest, hc, Bool.false_eq_true, if_false, hlt]
  · intro fetch fuel path st h
    exact walkDir_fetch_none fetch fuel path st h
  · intro fetch fuel root e1 e2 st t st' hroot ht1 ht2 hs1 hs2 hne h1 h2
    have hbeq : (e1.name == e2.name) = false := beq_eq_false_iff_ne.mpr hne
    have hstep1 := walkDir_fetch_none fetch fuel e1.path st h1
    show walkDir fetch (fuel + 1 + 1) root st = _
    rw [walkDir_succ, hroot]
    simp only [List.isEmpty_cons, Bool.false_eq_true, if_false, walkEntries_cons,
      walkEntries, hs1, hs2, ht1, ht2, beq_self_eq_true, if_true, hstep1, h2,
      setVal, hbeq]

/-- C2 witness: the failure-isolation facts instantiated on a concrete
error status and on the two-sibling oracle `siblingFetch`. -/
theorem fetch_failure_isolated_witness :
    (makeApiRequest (β := Unit) [HttpResult.resp 500 3 0 ()] "u" [] ⟨9, 0⟩).result =
      some none ∧
    walkDir siblingFetch 2 "" ⟨0, []⟩ =
      .ok (.cons "broken" (.dict .nil) (.cons "ok" (.dict .nil) .nil), ⟨0, []⟩) :=
  ⟨fetch_failure_isolated.2.1 Unit 500 3 0 () "u" [] ⟨9, 0⟩ (by omega)
      (fun h => absurd h (by omega)),
   fetch_failure_isolated.2.2.2 siblingFetch 0 ""
      ⟨"broken", "dir", "brokenpath", 0, none⟩ ⟨"ok", "dir", "okpath", 0, none⟩
      ⟨0, []⟩ .nil ⟨0, []⟩ rfl rfl rfl (by decide) (by decide)
      (by decide) rfl rfl⟩

/-- Overwriting or adding a binding with a clean key and a clean value
keeps the dict clean. -/
theorem setVal_clean (k : String) (v : PyVal) :
    ∀ (d : PyDict), cleanDict d = true → skipName k = false → cleanVal v = true →
      cleanDict (setVal d k v) = true
  | .nil, _, hk, hv => by
    simp only [setVal, cleanDict, hk, hv, Bool.not_false, Bool.and_true, Bool.true_and]
  | .cons k' w rest, hd, hk, hv => by
    simp only [cleanDict, Bool.and_eq_true, Bool.not_eq_true'] at hd
    obtain ⟨⟨hk', hw⟩, hrest⟩ := hd
    cases hkk : (k' == k) with
    | true =>
      simp only [setVal, hkk, if_true, cleanDict, Bool.and_eq_true, Bool.not_eq_true']
      exact ⟨⟨hk', hv⟩, hrest⟩
    | false =>
      simp only [setVal, hkk, Bool.false_eq_true, if_false, cleanDict,
        Bool.and_eq_true, Bool.not_eq_true']
      exact ⟨⟨hk', hw⟩, setVal_clean k v rest hrest hk hv⟩

/-- Looking up a clean dict yields a clean value. -/
theorem getVal_clean (k : String) :
    ∀ (d : PyDict) (v : PyVal), cleanDict d = true → getVal d k = some v →
      cleanVal v = true
  | .nil, v, _, hg => by simp [getVal] at hg
  | .cons k' w rest, v, hd, hg => by
    simp only [cleanDict, Bool.and_eq_true, Bool.not_eq_true'] at hd
    obtain ⟨⟨hk', hw⟩, hrest⟩ := hd
    cases hkk : (k' == k) with
    | true =>
      rw [getVal, hkk, if_pos rfl] at hg
      cases hg
      exact hw
    | false =>
      rw [getVal, hkk] at hg
      simp only [Bool.false_eq_true, if_false] at hg
      exact getVal_clean k rest v hrest hg

/-- The entry loop preserves cleanliness: when the recursive walk only
produces clean subtrees and the accumulator is clean, the loop's result
is clean. -/
theorem walkEntries_clean (recur : String → WalkState → Except WalkErr (PyDict × WalkState))
    (hrec : ∀ p s t s', recur p s = .ok (t, s') → cleanDict t = true) :
    ∀ (entries : List Entry) (acc : PyDict) (st : WalkState) (tree : PyDict)
      (st' : WalkState),
      cleanDict acc = true →
      walkEntries recur entries acc st = .ok (tree, st') → cleanDict tree = true := by
  intro entries
  induction entries with
  | nil =>
    intro acc st tree st' hacc h
    rw [walkEntries] at h
    simp only [Except.ok.injEq, Prod.mk.injEq] at h
    rw [← h.1]
    exact hacc
  | cons e rest ih =>
    intro acc st tree st' hacc h
    rw [walkEntries_cons] at h
    by_cases hskip : skipName e.name = true
    · rw [if_pos hskip] at h
      exact ih acc st tree st' hacc h
    · rw [if_neg hskip] at h
      have hsk : skipName e.name = false := by
        cases hs : skipName e.name
        · rfl
        · exact absurd hs hskip
      by_cases hdir : (e.type == "dir") = true
      · rw [if_pos hdir] at h
        cases hsub : recur e.path st with
        | error err => rw [hsub] at h; cases h
        | ok p =>
          obtain ⟨sub, st1⟩ := p
          rw [hsub] at h
          have hclean : cleanDict (setVal acc e.name (PyVal.dict sub)) = true :=
            setVal_clean e.name (PyVal.dict sub) acc hacc hsk
              (hrec e.path st sub st1 hsub)
          exact ih _ st1 tree st' hclean h
      · rw [if_neg hdir] at h
        cases hg : getVal acc "__files" with
        | none =>
          simp only [handleFile, hg] at h
          have hclean : cleanDict (setVal acc "__files" (PyVal.list [e.name])) = true := by
            refine setVal_clean "__files" (PyVal.list [e.name]) acc hacc (by decide) ?_
            simp only [cleanVal, List.all_cons, List.all_nil, hsk,
              Bool.not_false, Bool.and_true]
          exact ih _ _ tree st' hclean h
        | some v =>
          cases v with
          | dict sub =>
            simp only [handleFile, hg] at h
            exact Except.noConfusion h
          | list fs =>
            simp only [handleFile, hg] at h
            have hfs : cleanVal (PyVal.list fs) = true :=
              getVal_clean "__files" acc (PyVal.list fs) hacc hg
            have hclean : cleanDict
                (setVal acc "__files" (PyVal.list (fs ++ [e.name]))) = true := by
              refine setVal_clean "__files" (PyVal.list (fs ++ [e.name])) acc hacc
                (by decide) ?_
              simp only [cleanVal] at hfs ⊢
              simp only [List.all_append, List.all_cons, List.all_nil, hfs, hsk,
                Bool.not_false, Bool.and_true, Bool.true_and]
            exact ih _ _ tree st' hclean h

/-- C3: at every nesting depth, the node returned by the walk contains no
entry whose name starts with `'.'` and none named `node_modules` or
`__pycache__` — neither among its directory keys nor in any file list:
such entries are skipped before insertion and never stored. -/
theorem walk_excludes_hidden_and_noise :
    ∀ (fetch : String → Option (List Entry)) (fuel : Nat) (path : String)
      (st : WalkState) (tree : PyDict) (st' : WalkState),
      walkDir fetch fuel path st = .ok (tree, st') → cleanDict tree = true := by
  intro fetch fuel
  induction fuel with
  | zero =>
    intro path st tree st' h
    simp [walkDir] at h
  | succ f ih =>
    intro path st tree st' h
    rw [walkDir_succ] at h
    cases hf : fetch path with
    | none =>
      rw [hf] at h
      simp only [Except.ok.injEq, Prod.mk.injEq] at h
      rw [← h.1]
      rfl
    | some contents =>
      simp only [hf] at h
      by_cases he : contents.isEmpty = true
      · rw [if_pos he] at h
        simp only [Except.ok.injEq, Prod.mk.injEq] at h
        rw [← h.1]
        rfl
      · rw [if_neg he] at h
        exact walkEntries_clean (walkDir fetch f)
          (fun p s t s' hh => ih p s t s' hh) contents .nil st tree st' rfl h

/-- C3 witness: the invariant instantiated on the `hiddenNoiseFetch`
oracle, whose listings contain `.git`, `node_modules` and a hidden file
at depth two. -/
theorem walk_excludes_hidden_and_noise_witness :
    cleanDict (.cons "src"
      (.dict (.cons "__files" (.list ["main.py"]) .nil)) .nil) = true :=
  walk_excludes_hidden_and_noise hiddenNoiseFetch 3 "" ⟨0, []⟩
    (.cons "src" (.dict (.cons "__files" (.list ["main.py"]) .nil)) .nil)
    ⟨1, ["src/main.py"]⟩ rfl

/-- C4: a file entry with a recognized code extension, a usable download
URL and a reported size of at most 500000 bytes has its content download
issued (extraction attempted) while being added to the node's file list
with the run-wide counter incremented; a file whose reported size exceeds
500000 bytes is skipped by extraction yet is still added to the file list
and still increments the counter.  Stated for both shapes of a
collision-free `'__files'` slot (absent, or holding a file list). -/
theorem size_cap_behavior :
    (∀ (e : Entry) (acc : PyDict) (st : WalkState) (u : String),
      isCodeFile e.name = true → e.size ≤ 500000 → e.download_url = some u →
      u ≠ "" → getVal acc "__files" = none →
      handleFile e acc st = .ok (setVal acc "__files" (.list [e.name]),
        ⟨st.fileCount + 1, st.attempts ++ [e.path]⟩)) ∧
    (∀ (e : Entry) (acc : PyDict) (st : WalkState) (fs : List String) (u : String),
      isCodeFile e.name = true → e.size ≤ 500000 → e.download_url = some u →
      u ≠ "" → getVal acc "__files" = some (.list fs) →
      handleFile e acc st = .ok (setVal acc "__files" (.list (fs ++ [e.name])),
        ⟨st.fileCount + 1, st.attempts ++ [e.path]⟩)) ∧
    (∀ (e : Entry) (acc : PyDict) (st : WalkState),
      500000 < e.size → getVal acc "__files" = none →
      handleFile e acc st = .ok (setVal acc "__files" (.list [e.name]),
        ⟨st.fileCount + 1, st.attempts⟩)) ∧
    (∀ (e : Entry) (acc : PyDict) (st : WalkState) (fs : List String),
      500000 < e.size → getVal acc "__files" = some (.list fs) →
      handleFile e acc st = .ok (setVal acc "__files" (.list (fs ++ [e.name])),
        ⟨st.fileCount + 1, st.attempts⟩)) := by
  refine ⟨?_, ?_, ?_, ?_⟩
  · intro e acc st u hcode hsize hurl hu hg
    have hsz : ¬ e.size > 500000 := by omega
    have hbu : (u == "") = false := beq_eq_false_iff_ne.mpr hu
    simp [handleFile, hg, hcode, analyzeFileContent, hsz, hurl, hbu]
  · intro e acc st fs u hcode hsize hurl hu hg
    have hsz : ¬ e.size > 500000 := by omega
    have hbu : (u == "") = false := beq_eq_false_iff_ne.mpr hu
    simp [handleFile, hg, hcode, analyzeFileContent, hsz, hurl, hbu]
  · intro e acc st h500 hg
    by_cases hcode : isCodeFile e.name = true
    · simp [handleFile, hg, hcode, analyzeFileContent, h500]
    · simp [handleFile, hg, hcode]
  · intro e acc st fs h500 hg
    by_cases hcode : isCodeFile e.name = true
    · simp [handleFile, hg, hcode, analyzeFileContent, h500]
    · simp [handleFile, hg, hcode]

/-- C4 witness: the size-cap behavior instantiated on a 400-byte and a
600000-byte `.py` entry. -/
theorem size_cap_behavior_witness :
    handleFile smallEntry .nil ⟨0, []⟩ =
      .ok (setVal .nil "__files" (.list ["small.py"]), ⟨1, ["src/small.py"]⟩) ∧
    handleFile bigEntry .nil ⟨0, []⟩ =
      .ok (setVal .nil "__files" (.list ["big.py"]), ⟨1, []⟩) :=
  ⟨size_cap_behavior.1 smallEntry .nil ⟨0, []⟩ "u" (by decide) (by decide) rfl
      (by decide) rfl,
   size_cap_behavior.2.2.1 bigEntry .nil ⟨0, []⟩ (by decide) rfl⟩

/-- C5: on the sample source containing `def run(self, x):`,
`def _helper():` and `def __init__(self):`, the Python extractor yields
`run` with params `self, x`, keeps the dunder-style `__init__`, and emits
nothing named `_helper` (single-leading-underscore filter). -/
theorem python_extractor_privacy :
    extractPythonFunctions pySample "module.py" =
      [⟨"run", "module.py", "self, x", "Python"⟩,
       ⟨"__init__", "module.py", "self", "Python"⟩] ∧
    (extractPythonFunctions pySample "module.py").all
      (fun e => !(e.name == "_helper")) = true :=
  ⟨rfl, rfl⟩

/-- C9: on the sample Kotlin source, the extension-style declaration
`fun String.shout(...)` produces an element whose name is the dotted
`String.shout` and whose language tag `Kotlin (Extension)` differs from
the `Kotlin` tag given to plain functions (the plain pass also reports
`shout`, tagged `Kotlin`). -/
theorem kotlin_extension_extraction :
    extractKotlinFunctions ktSample "Util.kt" =
      [⟨"greet", "Util.kt", "name: String", "Kotlin"⟩,
       ⟨"shout", "Util.kt", "msg: String", "Kotlin"⟩,
       ⟨"String.shout", "Util.kt", "msg: String", "Kotlin (Extension)"⟩] ∧
    (extractKotlinFunctions ktSample "Util.kt").map CodeElement.language =
      ["Kotlin", "Kotlin", "Kotlin (Extension)"] ∧
    ("Kotlin (Extension)" : String) ≠ "Kotlin" :=
  ⟨rfl, rfl, by decide⟩

/-- C10: a subdirectory named `__files` collides with the reserved key.
When the directory is listed first, appending the sibling file's name to
the `'__files'` slot (now a nested dict) raises `AttributeError` and
aborts the walk; when the file is listed first, storing the directory's
subtree overwrites the file list, so the returned node never represents
both. -/
theorem files_key_collision :
    walkDir dirFirstFetch 2 "" ⟨0, []⟩ = .error .attributeError ∧
    walkDir fileFirstFetch 2 "" ⟨0, []⟩ =
      .ok (.cons "__files" (.dict .nil) .nil, ⟨1, []⟩) ∧
    getVal (.cons "__files" (.dict .nil) .nil) "__files" = some (.dict .nil) :=
  ⟨rfl, rfl, rfl⟩

/-- C6: `extract_features` includes every language key; a framework is
added whenever any of its indicator substrings occurs case-insensitively
in the serialized structure dict (which must be truthy, i.e. non-empty);
the result is deduplicated; and on languages
`{"Python": 1000, "JavaScript": 500}` with a serialization containing
`Dockerfile`, it contains `Python`, `JavaScript` and `Docker` with no
duplicates. -/
theorem feature_detection_spec :
    (∀ (langs : List (String × Nat)) (struct : PyDict) (l : String),
      l ∈ langs.map Prod.fst → l ∈ extractFeatures langs struct) ∧
    (∀ (langs : List (String × Nat)) (struct : PyDict) (fw : String)
        (inds : List String) (ind : String),
      (fw, inds) ∈ frameworksTable → struct ≠ PyDict.nil → ind ∈ inds →
      seqContains (lowerStr (pyStrVal (.dict struct))).data (lowerStr ind).data = true →
      fw ∈ extractFeatures langs struct) ∧
    (∀ (langs : List (String × Nat)) (struct : PyDict),
      (extractFeatures langs struct).Nodup) ∧
    ("Python" ∈ extractFeatures [("Python", 1000), ("JavaScript", 500)] dockerStruct ∧
     "JavaScript" ∈ extractFeatures [("Python", 1000), ("JavaScript", 500)] dockerStruct ∧
     "Docker" ∈ extractFeatures [("Python", 1000), ("JavaScript", 500)] dockerStruct ∧
     (extractFeatures [("Python", 1000), ("JavaScript", 500)] dockerStruct).Nodup) := by
  refine ⟨?_, ?_, ?_, ?_⟩
  · intro langs struct l hl
    cases struct with
    | nil =>
      simp only [extractFeatures, List.mem_dedup]
      exact hl
    | cons k v rest =>
      simp only [extractFeatures, List.mem_dedup, List.mem_append]
      exact Or.inl hl
  · intro langs struct fw inds ind hmem hne hind hcont
    cases struct with
    | nil => exact absurd rfl hne
    | cons k v rest =>
      simp only [extractFeatures, List.mem_dedup, List.mem_append]
      refine Or.inr (List.mem_filterMap.mpr ⟨(fw, inds), hmem, ?_⟩)
      rw [if_pos (List.any_eq_true.mpr ⟨ind, hind, hcont⟩)]
  · intro langs struct
    cases struct with
    | nil =>
      simp only [extractFeatures]
      exact List.nodup_dedup _
    | cons k v rest =>
      simp only [extractFeatures]
      exact List.nodup_dedup _
  · exact ⟨by decide, by decide, by decide, by decide⟩

/-- C6 witness: the language and framework clauses instantiated on the
concrete `Dockerfile` structure. -/
theorem feature_detection_spec_witness :
    "JavaScript" ∈ extractFeatures [("Python", 1000), ("JavaScript", 500)] dockerStruct ∧
    "Docker" ∈ extractFeatures [("Python", 1000), ("JavaScript", 500)] dockerStruct :=
  ⟨feature_detection_spec.1 [("Python", 1000), ("JavaScript", 500)] dockerStruct
      "JavaScript" (by decide),
   feature_detection_spec.2.1 [("Python", 1000), ("JavaScript", 500)] dockerStruct
      "Docker" ["Dockerfile", "docker-compose.yml"] "Dockerfile" (by decide)
      (fun h => PyDict.noConfusion h) (by decide) (by decide)⟩

/-- `split('/')` never yields an empty list of segments. -/
theorem splitSlash_ne_nil : ∀ (cs : List Char), splitSlash cs ≠ [] := by
  intro cs
  induction cs with
  | nil => simp [splitSlash]
  | cons c rest ih =>
    cases hc : (c == '/') with
    | true => simp [splitSlash, hc]
    | false =>
      rw [splitSlash, hc]
      simp only [Bool.false_eq_true, if_false]
      cases hsp : splitSlash rest with
      | nil => exact absurd hsp ih
      | cons p ps => simp

/-- The number of segments is the number of separators plus one. -/
theorem splitSlash_length : ∀ (cs : List Char),
    (splitSlash cs).length = cs.count '/' + 1 := by
  intro cs
  induction cs with
  | nil => simp [splitSlash]
  | cons c rest ih =>
    cases hc : (c == '/') with
    | true =>
      rw [splitSlash, hc]
      simp only [if_true, List.length_cons, List.count_cons, hc]
      omega
    | false =>
      rw [splitSlash, hc]
      simp only [Bool.false_eq_true, if_false]
      cases hsp : splitSlash rest with
      | nil => exact absurd hsp (splitSlash_ne_nil rest)
      | cons p ps =>
        rw [hsp] at ih
        simp only [List.length_cons, List.count_cons, hc, Bool.false_eq_true,
          if_false] at ih ⊢
        omega

/-- Splitting a slash-free list yields that single segment. -/
theorem splitSlash_no_slash : ∀ (b : List Char), '/' ∉ b → splitSlash b = [b] := by
  intro b
  induction b with
  | nil => intro _; rfl
  | cons c rest ih =>
    intro h
    simp only [List.mem_cons, not_or] at h
    obtain ⟨hc, hrest⟩ := h
    have hcb : (c == '/') = false :=
      beq_eq_false_iff_ne.mpr (fun hh => hc hh.symm)
    rw [splitSlash, hcb]
    simp only [Bool.false_eq_true, if_false, ih hrest]

/-- Splitting after a slash-free prefix peels that prefix off as the
first segment. -/
theorem splitSlash_append : ∀ (a : List Char), '/' ∉ a →
    ∀ (t : List Char), splitSlash (a ++ '/' :: t) = a :: splitSlash t := by
  intro a
  induction a with
  | nil =>
    intro _ t
    simp only [List.nil_append]
    rw [splitSlash]
    simp
  | cons c a' ih =>
    intro ha t
    simp only [List.mem_cons, not_or] at ha
    obtain ⟨hc, ha'⟩ := ha
    have hcb : (c == '/') = false :=
      beq_eq_false_iff_ne.mpr (fun hh => hc hh.symm)
    rw [List.cons_append, splitSlash, hcb]
    simp only [Bool.false_eq_true, if_false, ih ha' t]

/-- Stripping slashes leaves a list untouched when it starts and ends
with non-slash characters. -/
theorem stripSlashes_sandwich (a b : List Char) (ha : '/' ∉ a) (hb : '/' ∉ b)
    (hna : a ≠ []) (hnb : b ≠ []) :
    stripSlashes (a ++ '/' :: b) = a ++ '/' :: b := by
  obtain ⟨x, a', rfl⟩ : ∃ x a', a = x :: a' := by
    cases a with
    | nil => exact absurd rfl hna
    | cons x a' => exact ⟨x, a', rfl⟩
  obtain ⟨y, bR, hbrev⟩ : ∃ y t, b.reverse = y :: t := by
    cases hr : b.reverse with
    | nil => rw [List.reverse_eq_nil_iff] at hr; exact absurd hr hnb
    | cons y t => exact ⟨y, t, rfl⟩
  have hx : (x == '/') = false := by
    rw [beq_eq_false_iff_ne]
    intro hh
    exact ha (by simp [hh])
  have hy : (y == '/') = false := by
    rw [beq_eq_false_iff_ne]
    intro hh
    refine hb ?_
    rw [← List.mem_reverse, hbrev, hh]
    exact List.mem_cons_self _ _
  have h1 : (x :: a' ++ '/' :: b).dropWhile (fun c => c == '/') =
      x :: a' ++ '/' :: b := by
    rw [List.cons_append, List.dropWhile_cons, hx]
    simp
  have hlr : (x :: a' ++ '/' :: b).reverse = y :: (bR ++ '/' :: (x :: a').reverse) := by
    rw [List.reverse_append, List.reverse_cons, hbrev]
    simp
  have h2 : ((x :: a' ++ '/' :: b).reverse).dropWhile (fun c => c == '/') =
      (x :: a' ++ '/' :: b).reverse := by
    rw [hlr, List.dropWhile_cons, hy]
    simp
  show (((x :: a' ++ '/' :: b).dropWhile (fun c => c == '/')).reverse.dropWhile
      (fun c => c == '/')).reverse = x :: a' ++ '/' :: b
  rw [h1, h2, List.reverse_reverse]

/-- C8: construction validates the URL path: fewer than two path segments
raise `ValueError("Invalid GitHub repository URL")` (equivalently, the
stripped path contains no `/`), and otherwise owner and repository name
are the first two segments — in particular any path of the shape
`a/b(...)` with slash-free non-empty `a`, `b` yields owner `a` and
name `b`. -/
theorem url_validation_spec :
    (∀ (path : String), (splitSlash (stripSlashes path.data)).length < 2 →
      analyzerInit path = .error "Invalid GitHub repository URL") ∧
    (∀ (path : String) (a b : List Char) (rest : List (List Char)),
      splitSlash (stripSlashes path.data) = a :: b :: rest →
      analyzerInit path = .ok (a.asString, b.asString)) ∧
    (∀ (path : String),
      analyzerInit path = .error "Invalid GitHub repository URL" ↔
        '/' ∉ stripSlashes path.data) ∧
    (∀ (a b : List Char), '/' ∉ a → '/' ∉ b → a ≠ [] → b ≠ [] →
      analyzerInit (String.mk (a ++ '/' :: b)) = .ok (a.asString, b.asString)) := by
  have herr : ∀ (path : String),
      analyzerInit path = .error "Invalid GitHub repository URL" ↔
        '/' ∉ stripSlashes path.data := by
    intro path
    have hlen := splitSlash_length (stripSlashes path.data)
    cases hsp : splitSlash (stripSlashes path.data) with
    | nil => exact absurd hsp (splitSlash_ne_nil _)
    | cons a ps =>
      rw [hsp] at hlen
      cases ps with
      | nil =>
        simp only [List.length_cons, List.length_nil] at hlen
        constructor
        · intro _
          exact List.count_eq_zero.mp (by omega)
        · intro _
          simp only [analyzerInit, hsp]
      | cons b rest =>
        simp only [List.length_cons] at hlen
        constructor
        · intro h
          simp only [analyzerInit, hsp] at h
          exact Except.noConfusion h
        · intro hmem
          have h0 : (stripSlashes path.data).count '/' = 0 :=
            List.count_eq_zero.mpr hmem
          omega
  refine ⟨?_, ?_, herr, ?_⟩
  · intro path hlt
    have hlen := splitSlash_length (stripSlashes path.data)
    refine (herr path).mpr ?_
    refine List.count_eq_zero.mp ?_
    omega
  · intro path a b rest h
    simp only [analyzerInit, h]
  · intro a b ha hb hna hnb
    have hs0 : stripSlashes (String.mk (a ++ '/' :: b)).data = a ++ '/' :: b := by
      show stripSlashes (a ++ '/' :: b) = a ++ '/' :: b
      exact stripSlashes_sandwich a b ha hb hna hnb
    simp only [analyzerInit, hs0, splitSlash_append a ha b, splitSlash_no_slash b hb]

/-- C8 witness: validation applied to a parsable and an unparsable
path. -/
theorem url_validation_spec_witness :
    analyzerInit (String.mk ("saajan20".data ++ '/' :: "repo".data)) =
      .ok ("saajan20", "repo") ∧
    analyzerInit "nopath" = .error "Invalid GitHub repository URL" :=
  ⟨url_validation_spec.2.2.2 "saajan20".data "repo".data (by decide) (by decide)
      (by decide) (by decide),
   url_validation_spec.1 "nopath" (by decide)⟩
